import Mathlib

/-!
Verification development for the smartextractor layout core
(`smartextractor/processors/layout_processor.py` and
`smartextractor/processors/pdf_processor.py`).

The Python code is shallowly embedded: page coordinates and font sizes
become exact rationals (`ℚ`), Python lists become Lean lists, in-place
mutation becomes functional update, and code that can raise an exception
is embedded as an `Except Unit`-valued function.  The only pieces of the
program that are not translated verbatim are the two calls into
`sklearn.cluster.KMeans`, which are abstracted as explicit function
parameters (`km`, respectively a label function), since the library's
floating-point clustering has no exact specification.  Every other
threshold and branch follows the Python source line by line; rational
constants such as `0.4`, `1.1`, `0.2` are written as the exact fractions
`2/5`, `11/10`, `1/5`.
-/

set_option maxRecDepth 10000

attribute [local semireducible] Rat.add Rat.mul Rat.inv Rat.sub

deriving instance DecidableEq for Except

/-- Python `int(x)` on a float: truncation toward zero, embedded exactly on `ℚ`. -/
def pyInt (x : ℚ) : ℤ := x.num.tdiv x.den

/-- Python `abs` on a number. -/
def pyAbs (x : ℚ) : ℚ := if x < 0 then -x else x

/-- Mean of a list of rationals, as computed by `sum(l) / len(l)` (only used on
nonempty lists in the source; on `[]` Lean's division by zero yields `0`). -/
def listMean (l : List ℚ) : ℚ := l.sum / (l.length : ℚ)

/-- Embeds `smartextractor.models.TextBlock`: a positioned fragment of text.
`bbox` is the Python list `[x1, y1, x2, y2]` (arbitrary length, as in Python,
since callers may construct degenerate boxes). `block_type` starts as `"text"`. -/
structure TextBlock where
  text : String
  bbox : List ℚ
  confidence : ℚ := 1
  font_size : Option ℚ := none
  font_family : Option String := none
  is_bold : Bool := false
  is_italic : Bool := false
  block_type : String := "text"
deriving DecidableEq, Repr

/-- Embeds `smartextractor.models.PageResult` (the fields the layout core reads:
page number, fragment list, page geometry).  The dynamic attribute
`_column_processed` set by `_detect_columns` is modelled as a `Bool` field that
starts `false`. -/
structure PageResult where
  page_number : ℕ
  text_blocks : List TextBlock := []
  width : ℚ := 0
  height : ℚ := 0
  column_processed : Bool := false
deriving DecidableEq, Repr

/-- The sort key of `LayoutProcessor._sort_blocks_in_columns`:
`block.bbox[1] if block.bbox else 0`.  Total version, used once the
well-formedness of every box in the column has been checked. -/
def sortKey (b : TextBlock) : ℚ := if b.bbox = [] then 0 else b.bbox.getD 1 0

/-- The same sort key, with the `IndexError` of `block.bbox[1]` on a length-1
box made explicit. -/
def sortKeyE (b : TextBlock) : Except Unit ℚ :=
  if b.bbox = [] then .ok 0
  else if b.bbox.length < 2 then .error ()
  else .ok (b.bbox.getD 1 0)

/-- Comparison used by Python's stable `sorted(column, key=...)`. -/
def keyLe (a b : TextBlock) : Prop := sortKey a ≤ sortKey b

instance : DecidableRel keyLe := fun a b => inferInstanceAs (Decidable (_ ≤ _))

instance : IsTotal TextBlock keyLe := ⟨fun a b => le_total (sortKey a) (sortKey b)⟩

instance : IsTrans TextBlock keyLe := ⟨fun _ _ _ h h' => le_trans h h'⟩

/-- Python's `sorted(column, key=lambda block: ...)` is a stable sort by the key;
`List.insertionSort` with `keyLe` (insert before the first element of
greater-or-equal key) computes exactly that list. -/
def stableSortByKey (l : List TextBlock) : List TextBlock :=
  List.insertionSort keyLe l

/-- Embeds `LayoutProcessor._sort_blocks_in_columns`.  Sorting raises an
`IndexError` iff some block has a nonempty `bbox` of length 1 (the key lambda
evaluates `block.bbox[1]`); otherwise each column is stably sorted by the key. -/
def sort_blocks_in_columns (cols : List (List TextBlock)) : Except Unit (List (List TextBlock)) :=
  if cols.all (fun col => col.all (fun b => (sortKeyE b).isOk)) then
    .ok (cols.map stableSortByKey)
  else .error ()

/-- Embeds `LayoutProcessor._merge_columns_in_reading_order`: concatenate the
columns left to right (the page-width argument of the Python function is unused). -/
def merge_columns_in_reading_order (cols : List (List TextBlock)) : List TextBlock :=
  cols.flatten

/-- The column index `_assign_blocks_to_columns` computes for one block:
first equal-width band `[i*w/n, (i+1)*w/n)` containing the block's horizontal
center, defaulting to `0`.  `block.bbox[2]` raises `IndexError` when the box
has exactly two entries, which is surfaced as `.error`. -/
def asgCol (W : ℚ) (n : ℕ) (b : TextBlock) : Except Unit ℕ :=
  if b.bbox.length < 2 then .ok 0
  else if b.bbox.length < 3 then .error ()
  else
    let c := (b.bbox.getD 0 0 + b.bbox.getD 2 0) / 2
    .ok (match (List.range n).find? (fun (i : ℕ) =>
          decide (((i : ℚ)) * (W / n) ≤ c) && decide (c < (((i : ℚ)) + 1) * (W / n))) with
      | some i => i
      | none => 0)

/-- Embeds `LayoutProcessor._assign_blocks_to_columns`.  The Python code appends
each block to `columns[assigned]` in input order, which yields per-column lists
equal to filtering the input by assigned index; an `IndexError` on any block
aborts the whole assignment. -/
def assign_blocks_to_columns (p : PageResult) (n : ℕ) : Except Unit (List (List TextBlock)) :=
  if p.text_blocks.all (fun b => (asgCol p.width n b).isOk) then
    .ok ((List.range n).map (fun i =>
      p.text_blocks.filter (fun b => decide (asgCol p.width n b = .ok i))))
  else .error ()

/-- Python `sorted(set(xs))`: the ascending list of the distinct values. -/
def sortedDedup (l : List ℚ) : List ℚ := List.insertionSort (fun a b : ℚ => a ≤ b) l.dedup

/-- Bin index assigned by `np.histogram(xs, bins=nbins, range=(0, W))` to value
`v` when `W > 0`: equal-width bins over `[0, W]`, the last bin right-closed,
values outside the range dropped. -/
def histBin (nbins : ℕ) (W v : ℚ) : Option ℕ :=
  if v < 0 ∨ W < v then none
  else some (min (nbins - 1) (Int.toNat ⌊v * (nbins : ℚ) / W⌋))

/-- Counts of `np.histogram(xs, bins=nbins, range=(0, W))`. -/
def histCounts (nbins : ℕ) (W : ℚ) (xs : List ℚ) : List ℕ :=
  (List.range nbins).map (fun i => xs.countP (fun v => decide (histBin nbins W v = some i)))

/-- Consecutive differences of a list, `l[i] - l[i-1]`. -/
def consecGaps : List ℚ → List ℚ
  | a :: b :: rest => (b - a) :: consecGaps (b :: rest)
  | _ => []

/-- The gaps the source keeps for averaging: consecutive gaps of the sorted
deduplicated left edges that exceed the absolute noise floor `20`. -/
def significantGaps (unique_x : List ℚ) : List ℚ :=
  (consecGaps unique_x).filter (fun g => decide (20 < g))

/-- The gaps `_detect_columns_by_clustering` classifies as large:
`gap > avg_gap * 1.1 or gap > page_width * 0.2`. -/
def largeGapsOf (unique_x : List ℚ) (W : ℚ) : List ℚ :=
  let gaps := significantGaps unique_x
  gaps.filter (fun g => decide (listMean gaps * (11/10) < g) || decide (W * (1/5) < g))

/-- Embeds `LayoutProcessor._estimate_column_count`. -/
def estimate_column_count (W : ℚ) (large_gaps : List ℚ) : ℕ :=
  if large_gaps = [] then 1
  else
    let avg := listMean large_gaps
    if avg > W * (3/20) then 2
    else if avg > W * (2/25) then 3
    else 4

/-- Embeds `LayoutProcessor._detect_columns_by_clustering` (method 1's core).
`np.histogram` raises a `ValueError` on the inverted range `(0, W)` when
`W < 0`, surfaced as `.error`; the function is only reached with `W ≠ 0`. -/
def detect_columns_by_clustering (x_positions : List ℚ) (W : ℚ) : Except Unit ℕ :=
  if x_positions = [] then .ok 1
  else
    let ux := sortedDedup x_positions
    if ux.length < 2 then .ok 1
    else if W < 0 then .error ()
    else
      let nbins := min 20 (ux.length / 2 + 1)
      let hist := histCounts nbins W ux
      let avg : ℚ := (hist.sum : ℚ) / (nbins : ℚ)
      let gap_bins := (List.range nbins).filter (fun i => decide ((hist.getD i 0 : ℚ) < avg * (2/5)))
      if gap_bins.any (fun i =>
          decide (W * (1/4) < ((i : ℚ)) * W / (nbins : ℚ)) &&
          decide ((((i : ℚ)) + 1) * W / (nbins : ℚ) < W * (3/4))) then .ok 2
      else if significantGaps ux = [] then .ok 1
      else if largeGapsOf ux W ≠ [] then
        .ok (max 1 (min (estimate_column_count W (largeGapsOf ux W)) 4))
      else .ok 1

/-- Embeds `LayoutProcessor._analyze_column_layout` (method 1). -/
def analyze_column_layout (p : PageResult) : Except Unit ℕ :=
  if p.text_blocks = [] then .ok 1
  else
    let xs := (p.text_blocks.filter (fun b => decide (2 ≤ b.bbox.length))).map
      (fun b => b.bbox.getD 0 0)
    if xs = [] then .ok 1
    else if p.width = 0 then .ok 1
    else detect_columns_by_clustering xs p.width

/-- Embeds `LayoutProcessor._heuristic_column_detection` (method 2).  The call
`KMeans(n_clusters=2, random_state=0).fit(X)` is abstracted by the parameter
`km`, which returns the two cluster centers of the given list of horizontal
centers; the source then sorts the two centers and compares their distance to
30 percent of the page width.  `int(page_width / (avg_block_width * 1.1))` is a
float `ZeroDivisionError` when the average block width is `0`. -/
def heuristic_column_detection (km : List ℚ → ℚ × ℚ) (p : PageResult) : Except Unit ℕ :=
  if p.text_blocks = [] ∨ p.width = 0 then .ok 1
  else
    let withBox := p.text_blocks.filter (fun b => decide (4 ≤ b.bbox.length))
    let widths := withBox.map (fun b => b.bbox.getD 2 0 - b.bbox.getD 0 0)
    let centers := withBox.map (fun b => (b.bbox.getD 0 0 + b.bbox.getD 2 0) / 2)
    if widths = [] then .ok 1
    else
      let avgW := listMean widths
      let kmHit : Bool :=
        if 10 < centers.length then
          let cc := km centers
          decide (p.width * (3/10) < pyAbs (max cc.1 cc.2 - min cc.1 cc.2))
        else false
      if kmHit then .ok 2
      else if avgW < p.width * (9/20) then
        if avgW * (11/10) = 0 then .error ()
        else .ok (max 1 (min (pyInt (p.width / (avgW * (11/10)))) 4)).toNat
      else .ok 1

/-- Per-cell text weight accumulated by `_density_based_column_detection` for
one block: the block's text length (or `1` for empty text) on every grid cell
its box overlaps, clamped to the grid. -/
def cellContrib (cols rows : ℤ) (r c : ℤ) (b : TextBlock) : ℕ :=
  if b.bbox.length < 4 then 0
  else
    let x1 := b.bbox.getD 0 0
    let y1 := b.bbox.getD 1 0
    let x2 := b.bbox.getD 2 0
    let y2 := b.bbox.getD 3 0
    if max 0 (pyInt (x1 / 50)) ≤ c ∧ c ≤ min (cols - 1) (pyInt (x2 / 50)) ∧
       max 0 (pyInt (y1 / 50)) ≤ r ∧ r ≤ min (rows - 1) (pyInt (y2 / 50)) then
      (if b.text = "" then 1 else b.text.length)
    else 0

/-- Python `range(n)` for a possibly negative bound, as a list of integers. -/
def intRange (n : ℤ) : List ℤ := (List.range n.toNat).map (fun i => (i : ℤ))

/-- Total weight of the density-matrix column `c`: the sum of
`density_matrix[row][c]` over all rows. -/
def colDensity (blocks : List TextBlock) (cols rows : ℤ) (c : ℤ) : ℕ :=
  ((intRange rows).map (fun r => (blocks.map (cellContrib cols rows r c)).sum)).sum

/-- Embeds `LayoutProcessor._analyze_density_distribution`. -/
def analyze_density_distribution (densities : List ℕ) : ℕ :=
  if densities = [] then 1
  else
    let avg : ℚ := (densities.sum : ℚ) / (densities.length : ℚ)
    let high := densities.countP (fun d => decide (avg * (3/10) < (d : ℚ)))
    if high ≤ 1 then 1 else if high ≤ 2 then 2 else if high ≤ 3 then 3 else 4

/-- Embeds `LayoutProcessor._density_based_column_detection` (method 3).  The
tuple unpacking `x1, y1, x2, y2 = block.bbox` raises a `ValueError` when some
box has more than four entries (boxes shorter than four are skipped by the
guard). -/
def density_based_column_detection (p : PageResult) : Except Unit ℕ :=
  if p.text_blocks = [] ∨ p.width = 0 ∨ p.height = 0 then .ok 1
  else if p.text_blocks.any (fun b => decide (4 < b.bbox.length)) then .error ()
  else
    let cols : ℤ := pyInt (p.width / 50) + 1
    let rows : ℤ := pyInt (p.height / 50) + 1
    if rows ≤ 0 then .ok 1
    else .ok (analyze_density_distribution
      ((intRange cols).map (fun c => colDensity p.text_blocks cols rows c)))

/-- Number of occurrences of `x` in `l` (the count stored by
`collections.Counter`). -/
def countOcc (l : List ℕ) (x : ℕ) : ℕ := l.countP (fun y => decide (y = x))

/-- The keys of `collections.Counter(l)` in insertion order (first occurrence
order). -/
def keysInOrder : List ℕ → List ℕ
  | [] => []
  | x :: xs => x :: (keysInOrder xs).filter (fun y => decide (y ≠ x))

/-- `Counter(l).most_common(1)[0][0]`: the key of maximal count, ties broken in
favour of the key encountered first (`heapq.nlargest` is stable). -/
def mostCommonFirst (l : List ℕ) : ℕ :=
  match keysInOrder l with
  | [] => 0
  | k :: ks => ks.foldl (fun best k2 => if countOcc l best < countOcc l k2 then k2 else best) k

/-- Embeds `LayoutProcessor._improve_column_detection`: run the three methods
and combine with `Counter(...).most_common(1)`. -/
def improve_column_detection (km : List ℚ → ℚ × ℚ) (p : PageResult) : Except Unit ℕ :=
  if p.text_blocks = [] then .ok 1
  else do
    let c1 ← analyze_column_layout p
    let c2 ← heuristic_column_detection km p
    let c3 ← density_based_column_detection p
    pure (mostCommonFirst [c1, c2, c3])

/-- The body of the `try` block of `LayoutProcessor._detect_columns`, steps 1-4:
estimate the column count (`none` means count at most 1: return unchanged),
assign blocks to columns, sort inside columns, merge in reading order. -/
def columnPipeline (km : List ℚ → ℚ × ℚ) (p : PageResult) :
    Except Unit (Option (List TextBlock)) := do
  let n ← improve_column_detection km p
  if n ≤ 1 then pure none
  else do
    let cols ← assign_blocks_to_columns p n
    let scols ← sort_blocks_in_columns cols
    pure (some (merge_columns_in_reading_order scols))

/-- Embeds `LayoutProcessor._detect_columns`: guard on empty pages and unknown
geometry, then run the pipeline; any exception inside the `try` block is caught
and the page is returned unchanged, otherwise the reordered blocks are stored
and the page is flagged as column-processed. -/
def detect_columns (km : List ℚ → ℚ × ℚ) (p : PageResult) : PageResult :=
  if p.text_blocks = [] ∨ p.width = 0 then p
  else
    match columnPipeline km p with
    | .error _ => p
    | .ok none => p
    | .ok (some blocks) => { p with text_blocks := blocks, column_processed := true }

/-- ASCII whitespace, the class `\s` of Python's `re` on the inputs we model. -/
def isAsciiSpace (c : Char) : Bool :=
  c = ' ' || c = '\t' || c = '\n' || c = '\r' || c = '\x0b' || c = '\x0c'

/-- An ASCII decimal digit, the class `\d`. -/
def isDigit09 (c : Char) : Bool := '0' ≤ c && c ≤ '9'

/-- The character class `[A-Z]`. -/
def isUpperAZ (c : Char) : Bool := 'A' ≤ c && c ≤ 'Z'

/-- The character class `[a-zA-Z]`. -/
def isAlphaAscii (c : Char) : Bool := ('a' ≤ c && c ≤ 'z') || isUpperAZ c

/-- Python `str.strip()` on the character list of a string. -/
def stripChars (l : List Char) : List Char :=
  ((l.dropWhile isAsciiSpace).reverse.dropWhile isAsciiSpace).reverse

/-- Consume a literal word at the start of the input; `some` of the remainder
on success. -/
def afterLit : List Char → List Char → Option (List Char)
  | [], l => some l
  | _ :: _, [] => none
  | a :: as, b :: bs => if a = b then afterLit as bs else none

/-- Split into the leading maximal digit run and the rest. -/
def digitRun (l : List Char) : List Char × List Char :=
  (l.takeWhile isDigit09, l.dropWhile isDigit09)

/-- Matches `\s+` followed by at least `k` digits (the classes are disjoint, so
greedy matching is equivalent to the regex with backtracking). -/
def spacesThenDigits (k : ℕ) (l : List Char) : Bool :=
  let rest := l.dropWhile isAsciiSpace
  decide (rest.length < l.length) && decide (k ≤ (digitRun rest).1.length)

/-- The regex `^\d+$`. -/
def patPageNum (l : List Char) : Bool := !l.isEmpty && l.all isDigit09

/-- The regex `^[A-Z][A-Z\s]{1,50}$`. -/
def patCapsRun (l : List Char) : Bool :=
  match l with
  | c :: rest => isUpperAZ c && decide (1 ≤ rest.length) && decide (rest.length ≤ 50) &&
      rest.all (fun d => isUpperAZ d || isAsciiSpace d)
  | [] => false

/-- The regex `^[A-Z][A-Z\s&]{1,30}$`. -/
def patCapsAmp (l : List Char) : Bool :=
  match l with
  | c :: rest => isUpperAZ c && decide (1 ≤ rest.length) && decide (rest.length ≤ 30) &&
      rest.all (fun d => isUpperAZ d || isAsciiSpace d || d = '&')
  | [] => false

/-- The regex `^(Chapter|Section|Part)\s+\d+` (an unanchored-on-the-right
`re.match`). -/
def patChapterHead (l : List Char) : Bool :=
  ["Chapter", "Section", "Part"].any (fun w =>
    match afterLit w.data l with
    | some r => spacesThenDigits 1 r
    | none => false)

/-- The date regex of the source: one or two digits, a slash or dash, one or
two digits, a slash or dash, then two to four digits, anchored on both sides;
digit runs and separators are disjoint classes, so checking the greedy run
lengths is exact. -/
def patDateSlash (l : List Char) : Bool :=
  let p1 := digitRun l
  match p1.2 with
  | s1 :: r2 =>
    if decide (1 ≤ p1.1.length) && decide (p1.1.length ≤ 2) && (s1 = '/' || s1 = '-') then
      let p2 := digitRun r2
      match p2.2 with
      | s2 :: r4 =>
        if decide (1 ≤ p2.1.length) && decide (p2.1.length ≤ 2) && (s2 = '/' || s2 = '-') then
          let p3 := digitRun r4
          decide (2 ≤ p3.1.length) && decide (p3.1.length ≤ 4) && p3.2.isEmpty
        else false
      | [] => false
    else false
  | [] => false

/-- The regex `^\d{4}-\d{2}-\d{2}$`. -/
def patDateISO (l : List Char) : Bool :=
  let p1 := digitRun l
  match p1.2 with
  | '-' :: r2 =>
    if p1.1.length = 4 then
      let p2 := digitRun r2
      match p2.2 with
      | '-' :: r4 =>
        decide (p2.1.length = 2) &&
          (let p3 := digitRun r4
           decide (p3.1.length = 2) && p3.2.isEmpty)
      | _ => false
    else false
  | _ => false

/-- The regex `^Page\s+\d+`. -/
def patPageWord (l : List Char) : Bool :=
  match afterLit "Page".data l with
  | some r => spacesThenDigits 1 r
  | none => false

/-- The regex `^-\s*\d+\s*-$`. -/
def patDashNum (l : List Char) : Bool :=
  match l with
  | '-' :: r1 =>
    let r2 := r1.dropWhile isAsciiSpace
    let p := digitRun r2
    decide (1 ≤ p.1.length) &&
      (match p.2.dropWhile isAsciiSpace with
       | ['-'] => true
       | _ => false)
  | _ => false

/-- The regex `^©\s*\d{4}`. -/
def patCopySign (l : List Char) : Bool :=
  match l with
  | c :: r1 => c = '©' && decide (4 ≤ (digitRun (r1.dropWhile isAsciiSpace)).1.length)
  | [] => false

/-- The regex `^Copyright\s+\d{4}`. -/
def patCopyWord (l : List Char) : Bool :=
  match afterLit "Copyright".data l with
  | some r => spacesThenDigits 4 r
  | none => false

/-- The regex `^(Confidential|Internal|Draft)`. -/
def patConfid (l : List Char) : Bool :=
  ["Confidential", "Internal", "Draft"].any (fun w => (afterLit w.data l).isSome)

/-- The regex `^[A-Z]:\\`. -/
def patDrivePath (l : List Char) : Bool :=
  match l with
  | c0 :: c1 :: c2 :: _ => isUpperAZ c0 && c1 = ':' && c2 = '\\'
  | _ => false

/-- The regex `^/[a-zA-Z/]+$`. -/
def patUnixPath (l : List Char) : Bool :=
  match l with
  | '/' :: rest => !rest.isEmpty && rest.all (fun c => isAlphaAscii c || c = '/')
  | _ => false

/-- The ordered header-pattern scan of `_is_likely_header`. -/
def headerPatternHit (l : List Char) : Bool :=
  patPageNum l || patCapsRun l || patChapterHead l || patDateSlash l || patDateISO l ||
    patCapsAmp l

/-- The ordered footer-pattern scan of `_is_likely_footer`. -/
def footerPatternHit (l : List Char) : Bool :=
  patPageNum l || patPageWord l || patDashNum l || patDateSlash l || patDateISO l ||
    patCopySign l || patCopyWord l || patConfid l || patDrivePath l || patUnixPath l

/-- Embeds `LayoutProcessor._is_likely_header`. -/
def is_likely_header (b : TextBlock) (W : ℚ) : Bool :=
  if b.text = "" then false
  else
    let t := stripChars b.text.data
    if t.length < 2 then false
    else if 200 < t.length then false
    else if headerPatternHit t then true
    else if decide (4 ≤ b.bbox.length) &&
        decide (pyAbs ((b.bbox.getD 0 0 + b.bbox.getD 2 0) / 2 - W / 2) < W * (1/10)) then true
    else match b.font_size with
      | some s => decide (s ≠ 0) && decide (s < 12)
      | none => false

/-- Embeds `LayoutProcessor._is_likely_footer`. -/
def is_likely_footer (b : TextBlock) (W : ℚ) : Bool :=
  if b.text = "" then false
  else
    let t := stripChars b.text.data
    if t.length < 2 then false
    else if 200 < t.length then false
    else if footerPatternHit t then true
    else if decide (4 ≤ b.bbox.length) &&
        decide (pyAbs ((b.bbox.getD 0 0 + b.bbox.getD 2 0) / 2 - W / 2) < W * (1/10)) then true
    else match b.font_size with
      | some s => decide (s ≠ 0) && decide (s < 12)
      | none => false

/-- The per-block update of `LayoutProcessor._detect_headers`: a truthy font
size above 14 marks the block as a title. -/
def titleStep (b : TextBlock) : TextBlock :=
  match b.font_size with
  | some s => if decide (s ≠ 0) && decide (14 < s) then { b with block_type := "title" } else b
  | none => b

/-- Embeds `LayoutProcessor._detect_headers` (title detection). -/
def detect_headers (p : PageResult) : PageResult :=
  { p with text_blocks := p.text_blocks.map titleStep }

/-- The per-block update of `LayoutProcessor._detect_headers_footers`; the
local variables `y_top`, `y_bottom`, `x_left`, `x_right` of the source are the
box entries 1, 3, 0 and 2. -/
def hfStep (W H : ℚ) (b : TextBlock) : TextBlock :=
  if b.bbox.length < 4 then b
  else if H * (3/10) < b.bbox.getD 3 0 - b.bbox.getD 1 0 ∨
      W * (4/5) < b.bbox.getD 2 0 - b.bbox.getD 0 0 then b
  else if b.bbox.getD 1 0 < H * (1/20) ∧ b.bbox.getD 3 0 < H * (1/20) * 2 then
    (if is_likely_header b W then { b with block_type := "header" } else b)
  else if H * (19/20) < b.bbox.getD 3 0 ∧ H * (19/20) - H * (1/20) < b.bbox.getD 1 0 then
    (if is_likely_footer b W then { b with block_type := "footer" } else b)
  else b

/-- Embeds `LayoutProcessor._detect_headers_footers`. -/
def detect_headers_footers (p : PageResult) : PageResult :=
  { p with text_blocks := p.text_blocks.map (hfStep p.width p.height) }

/-- Embeds `LayoutProcessor.process`: the title pass and the header/footer pass
run under `config.detect_headers`, column detection under
`config.detect_columns`.  All three passes are total in the embedding, so the
surrounding `try` never fires. -/
def layout_process (km : List ℚ → ℚ × ℚ) (flagHeaders flagColumns : Bool)
    (p : PageResult) : PageResult :=
  let p1 := if flagHeaders then detect_headers p else p
  let p2 := if flagHeaders then detect_headers_footers p1 else p1
  if flagColumns then detect_columns km p2 else p2

/-- Embeds one `pdfplumber` character dict as consumed by
`PDFProcessor._extract_text_objects` (the keys the code reads, with the
defaults of `char.get(key, 0)`). -/
structure PChar where
  text : String
  x0 : ℚ := 0
  x1 : ℚ := 0
  top : ℚ := 0
  bottom : ℚ := 0
  size : Option ℚ := none
  fontname : String := ""
deriving DecidableEq, Repr, Inhabited

/-- Embeds `smartextractor.processors.pdf_processor.TextObject`. -/
structure TextObject where
  text : String
  bbox : List ℚ
  font_size : Option ℚ := none
  font_family : Option String := none
  is_bold : Bool := false
  is_italic : Bool := false
deriving DecidableEq, Repr

/-- Minimum of a list as Python's `min` over a nonempty generator (`0` is never
used: the caller guards against the empty list). -/
def minList : List ℚ → ℚ
  | [] => 0
  | x :: xs => xs.foldl min x

/-- Maximum of a list as Python's `max` over a nonempty generator. -/
def maxList : List ℚ → ℚ
  | [] => 0
  | x :: xs => xs.foldl max x

/-- Embeds `PDFProcessor._calculate_bbox`. -/
def calculate_bbox (chars : List PChar) : List ℚ :=
  if chars = [] then [0, 0, 0, 0]
  else [minList (chars.map (·.x0)), minList (chars.map (·.top)),
        maxList (chars.map (·.x1)), maxList (chars.map (·.bottom))]

/-- A decidable check that `needle` occurs at the start of `hay`. -/
def startsWithChars : List Char → List Char → Bool
  | [], _ => true
  | _ :: _, [] => false
  | a :: as, b :: bs => a = b && startsWithChars as bs

/-- A decidable check that `needle` occurs somewhere inside `hay` (Python's
`in` on strings). -/
def hasInfixChars (needle hay : List Char) : Bool :=
  (List.range (hay.length + 1)).any (fun i => startsWithChars needle (hay.drop i))

/-- The font dictionary built by `PDFProcessor._extract_font_info`. -/
structure FontInfo where
  size : Option ℚ
  fontname : String
  is_bold : Bool
  is_italic : Bool
deriving DecidableEq, Repr

/-- Embeds `PDFProcessor._extract_font_info`. -/
def extract_font_info (c : PChar) : FontInfo :=
  let lower := c.fontname.data.map Char.toLower
  { size := c.size, fontname := c.fontname,
    is_bold := hasInfixChars "bold".data lower,
    is_italic := hasInfixChars "italic".data lower || hasInfixChars "oblique".data lower }

/-- Python `''.join(char['text'] for char in chars)`. -/
def joinTexts (chars : List PChar) : String :=
  chars.foldl (fun acc c => acc ++ c.text) ""

/-- The `TextObject(...)` constructor call of `_extract_text_objects`. -/
def mkTextObject (t : String) (bb : List ℚ) (fi : FontInfo) : TextObject :=
  { text := t, bbox := bb, font_size := fi.size, font_family := some fi.fontname,
    is_bold := fi.is_bold, is_italic := fi.is_italic }

/-- Characters with cluster label `0` (`left_chars`), in input order. -/
def clusterLeft (g : List PChar) (labels : List Bool) : List PChar :=
  ((g.zip labels).filter (fun pr => pr.2 = false)).map (·.1)

/-- Characters with cluster label `1` (`right_chars`), in input order. -/
def clusterRight (g : List PChar) (labels : List Bool) : List PChar :=
  ((g.zip labels).filter (fun pr => pr.2 = true)).map (·.1)

/-- Embeds the per-column-group emission of `PDFProcessor._extract_text_objects`
(the loop body over `column_groups`, including the oversized-fragment
character-cluster rescue).  The call `KMeans(n_clusters=2, random_state=0)` on
the character left edges is abstracted by `km2`, which returns the cluster
label (`false` for cluster 0) of each character; `.error` models the `except`
branch, in which the group is emitted unsplit. -/
def emit_col_group (km2 : List ℚ → Except Unit (List Bool)) (W : ℚ) (g : List PChar) :
    List TextObject :=
  let text := joinTexts g
  if String.mk (stripChars text.data) = "" then []
  else
    let bb := calculate_bbox g
    let fi := extract_font_info (g.headD default)
    if decide (W * (3/5) < bb.getD 2 0 - bb.getD 0 0) && decide (10 < g.length) then
      match km2 (g.map (·.x0)) with
      | .error _ => [mkTextObject text bb fi]
      | .ok labels =>
        let lc := clusterLeft g labels
        let rc := clusterRight g labels
        let lm := if lc = [] then 0 else listMean (lc.map (·.x0))
        let rm := if rc = [] then 0 else listMean (rc.map (·.x0))
        let lr := if rm < lm then (rc, lc) else (lc, rc)
        ([lr.1, lr.2].filter (fun s => !decide (s.length < 3))).map
          (fun s => mkTextObject (joinTexts s) (calculate_bbox s)
            (extract_font_info (s.headD default)))
    else [mkTextObject text bb fi]

/-- Embeds `smartextractor.processors.pdf_processor.PageData` (the fields
relevant to text extraction; images and tables are lists the claims do not
touch and are omitted). -/
structure PageData where
  page_number : ℕ
  width : ℚ
  height : ℚ
  text_objects : List TextObject
deriving DecidableEq, Repr

/-- Embeds `smartextractor.processors.pdf_processor.PDFData` (metadata
omitted). -/
structure PDFData where
  pages : List PageData
  num_pages : ℕ
  is_encrypted : Bool
deriving DecidableEq, Repr

/-- Embeds `PDFProcessor._create_empty_page`. -/
def create_empty_page (n : ℕ) : PageData :=
  { page_number := n, width := 0, height := 0, text_objects := [] }

/-- Embeds the page loop of `PDFProcessor.process`: if the document has any
pages, only `pdf.pages[0]` is processed (with page number 0), the per-page
exception handler substituting an empty page; all further pages are ignored.
The opened `pdfplumber` document is abstracted as the list of its pages
together with the per-page processing collaborator `process_page`
(`PDFProcessor._process_page`). -/
def pdf_process {α : Type} (process_page : α → ℕ → Except Unit PageData)
    (pdfPages : List α) : PDFData :=
  let pages : List PageData :=
    match pdfPages with
    | [] => []
    | pg :: _ =>
      match process_page pg 0 with
      | .ok pd => [pd]
      | .error _ => [create_empty_page 0]
  { pages := pages, num_pages := pages.length, is_encrypted := false }

/-! Concrete inputs used by witnesses and counterexamples. -/

/-- A trivial permutation-invariant stand-in for the abstracted KMeans call. -/
def km0 : List ℚ → ℚ × ℚ := fun _ => (0, 0)

/-- Shorthand for a body text block with a four-entry box. -/
def mkB (x0 y0 x1 y1 : ℚ) (t : String) : TextBlock := { text := t, bbox := [x0, y0, x1, y1] }

/-- A page with a single wide-ish block: the three methods vote (1, 4, 4). -/
def pageOneBlock : PageResult :=
  { page_number := 1, text_blocks := [mkB 0 0 200 20 "aaaaa"], width := 1000, height := 1000 }

/-- A page whose three methods return the pairwise distinct counts (2, 1, 4):
eight wide blocks whose left edges cluster at the left and right of a 1000-wide
page, leaving an empty histogram bin in the middle. -/
def pageThreeWay : PageResult :=
  { page_number := 1, width := 1000, height := 1000, text_blocks :=
    [mkB 10 0 510 20 "aaaaaaaaaa",
     mkB 50 100 550 120 "aaaaaaaaaa",
     mkB 100 200 600 220 "aaaaaaaaaa",
     mkB 150 300 650 320 "aaaaaaaaaa",
     mkB 290 400 790 420 "aaaaaaaaaa",
     mkB 620 500 1120 520 "aaaaaaaaaa",
     mkB 660 600 1160 620 "aaaaaaaaaa",
     mkB 700 700 1200 720 "aaaaaaaaaa"] }

/-- A page containing a block whose box has five entries: the density method's
tuple unpacking raises, so the whole column pipeline fails. -/
def pageLen5 : PageResult :=
  { page_number := 1, text_blocks := [{ text := "x", bbox := [1, 2, 3, 4, 5] }],
    width := 100, height := 100 }

/-- A page containing a block whose box has exactly two entries: column
assignment evaluates `block.bbox[2]` and raises `IndexError`. -/
def pageLen2 : PageResult :=
  { page_number := 1, text_blocks := [{ text := "x", bbox := [0, 0] }], width := 100, height := 100 }

/-- An empty page. -/
def pageEmpty : PageResult := { page_number := 1, width := 500, height := 500 }

/-! General lemmas about the embedded operations. -/

theorem flatten_map_nil {β : Type} (L : List β) :
    (L.map (fun _ => ([] : List TextBlock))).flatten = [] := by
  induction L with
  | nil => rfl
  | cons x xs ih => simpa using ih

theorem map_if_not_mem {α : Type} (b : α) (F : ℕ → List α) (j : ℕ) (L : List ℕ)
    (hnot : j ∉ L) :
    L.map (fun i => if j = i then b :: F i else F i) = L.map F := by
  induction L with
  | nil => rfl
  | cons i L ih =>
    have hji : j ≠ i := fun h => hnot (h ▸ List.mem_cons_self i L)
    have hL : j ∉ L := fun h => hnot (List.mem_cons_of_mem i h)
    simp [hji, ih hL]

theorem flatten_map_if_insert {α : Type} (b : α) (F : ℕ → List α) (j : ℕ) :
    ∀ L : List ℕ, L.Nodup → j ∈ L →
      ((L.map (fun i => if j = i then b :: F i else F i)).flatten).Perm
        (b :: (L.map F).flatten) := by
  intro L
  induction L with
  | nil => intro _ h; cases h
  | cons i L ih =>
    intro hnd hmem
    by_cases hji : j = i
    · subst hji
      have hnot : j ∉ L := (List.nodup_cons.mp hnd).1
      simp only [List.map_cons, List.flatten_cons, if_pos rfl]
      rw [map_if_not_mem b F j L hnot]
      simp
    · have hmem' : j ∈ L := by
        rcases List.mem_cons.mp hmem with h | h
        · exact absurd h hji
        · exact h
      have hperm := ih (List.nodup_cons.mp hnd).2 hmem'
      simp only [List.map_cons, List.flatten_cons, if_neg hji]
      exact (hperm.append_left (F i)).trans List.perm_middle

theorem flatten_filter_index {α : Type} [DecidableEq α] (idx : α → ℕ) (n : ℕ) :
    ∀ blocks : List α, (∀ b ∈ blocks, idx b < n) →
      (((List.range n).map (fun i => blocks.filter (fun b => decide (idx b = i)))).flatten).Perm
        blocks := by
  intro blocks
  induction blocks with
  | nil => intro _; simp [flatten_map_nil]
  | cons b bs ih =>
    intro hlt
    have hb : idx b < n := hlt b (List.mem_cons_self b bs)
    have hbs : ∀ x ∈ bs, idx x < n := fun x hx => hlt x (List.mem_cons_of_mem b hx)
    have hmap : (List.range n).map (fun i => (b :: bs).filter (fun x => decide (idx x = i))) =
        (List.range n).map (fun i => if idx b = i then b :: bs.filter (fun x => decide (idx x = i))
          else bs.filter (fun x => decide (idx x = i))) := by
      refine List.map_congr_left (fun i _ => ?_)
      by_cases h : idx b = i <;> simp [List.filter_cons, h]
    rw [hmap]
    refine (flatten_map_if_insert b (fun i => bs.filter (fun x => decide (idx x = i))) (idx b)
      (List.range n) (List.nodup_range n) (List.mem_range.mpr hb)).trans ?_
    exact (ih hbs).cons b

theorem filter_perm_flatten {α : Type} (f : List α → List α) (hf : ∀ l, (f l).Perm l) :
    ∀ L : List (List α), ((L.map f).flatten).Perm L.flatten := by
  intro L
  induction L with
  | nil => simp
  | cons c L ih => simpa using (hf c).append ih

theorem filter_keyEq_orderedInsert (v : ℚ) (x : TextBlock) :
    ∀ l : List TextBlock,
      (List.orderedInsert keyLe x l).filter (fun b => decide (sortKey b = v)) =
        if sortKey x = v then x :: l.filter (fun b => decide (sortKey b = v))
        else l.filter (fun b => decide (sortKey b = v)) := by
  intro l
  induction l with
  | nil => by_cases h : sortKey x = v <;> simp [List.orderedInsert, h]
  | cons y ys ih =>
    simp only [List.orderedInsert]
    by_cases hle : keyLe x y
    · by_cases h : sortKey x = v <;> simp [hle, h, List.filter_cons]
    · have hlt : sortKey y < sortKey x := lt_of_not_le hle
      by_cases h : sortKey x = v
      · have hyv : ¬ sortKey y = v := fun he => absurd (he.trans h.symm) (ne_of_lt hlt)
        simp [hle, List.filter_cons, hyv, ih, h]
      · simp [hle, List.filter_cons, ih, h]

theorem filter_keyEq_sort (v : ℚ) :
    ∀ l : List TextBlock,
      (stableSortByKey l).filter (fun b => decide (sortKey b = v)) =
        l.filter (fun b => decide (sortKey b = v)) := by
  intro l
  induction l with
  | nil => rfl
  | cons x xs ih =>
    show (List.orderedInsert keyLe x (stableSortByKey xs)).filter _ = _
    rw [filter_keyEq_orderedInsert]
    by_cases h : sortKey x = v <;> simp [h, ih, List.filter_cons]

theorem stableSortByKey_perm (l : List TextBlock) : (stableSortByKey l).Perm l :=
  List.perm_insertionSort keyLe l

theorem stableSortByKey_sorted (l : List TextBlock) : List.Sorted keyLe (stableSortByKey l) :=
  List.sorted_insertionSort keyLe l

theorem stableSortByKey_of_sorted {l : List TextBlock} (h : List.Sorted keyLe l) :
    stableSortByKey l = l :=
  List.Sorted.insertionSort_eq h

theorem stableSortByKey_idem (l : List TextBlock) :
    stableSortByKey (stableSortByKey l) = stableSortByKey l :=
  stableSortByKey_of_sorted (stableSortByKey_sorted l)

/-! Claim C10. -/

/-- C10: for every input PDF, `PDFProcessor.process` returns a `PDFData` whose
pages list has length at most 1 (and `num_pages` agrees); moreover the result
on a document is exactly the result on its first page alone, so the extraction
never contains content from pages beyond page 1, regardless of the document's
page count. -/
theorem C10_pdf_process_first_page_only {α : Type}
    (process_page : α → ℕ → Except Unit PageData) (pdfPages : List α) :
    (pdf_process process_page pdfPages).pages.length ≤ 1 ∧
    (pdf_process process_page pdfPages).num_pages = (pdf_process process_page pdfPages).pages.length ∧
    (∀ (pg : α) (rest : List α),
      (pdf_process process_page (pg :: rest)).pages = (pdf_process process_page [pg]).pages) := by
  refine ⟨?_, ?_, ?_⟩
  · cases pdfPages with
    | nil => simp [pdf_process]
    | cons pg rest => cases h : process_page pg 0 <;> simp [pdf_process, h]
  · cases pdfPages with
    | nil => simp [pdf_process]
    | cons pg rest => cases h : process_page pg 0 <;> simp [pdf_process, h]
  · intro pg rest
    cases h : process_page pg 0 <;> simp [pdf_process, h]

/-! Claim C7. -/

/-- C7: any internal failure during column estimation, assignment or
composition (an `.error` of the pipeline inside the `try` block of
`_detect_columns`) is caught, and the page is returned unchanged — the
fragments stay in their original extraction order and no exception escapes
layout processing. -/
theorem C7_detect_columns_catches_failures (km : List ℚ → ℚ × ℚ) (p : PageResult)
    (h : columnPipeline km p = .error ()) :
    detect_columns km p = p := by
  unfold detect_columns
  by_cases hg : p.text_blocks = [] ∨ p.width = 0
  · simp [hg]
  · simp [hg, h]

/-- Witness for C7: on a page whose single block has a five-entry box the
density method's tuple unpacking fails, the pipeline errors, and the page
comes back unchanged. -/
theorem C7_detect_columns_catches_failures_witness :
    detect_columns km0 pageLen5 = pageLen5 :=
  C7_detect_columns_catches_failures km0 pageLen5 (by decide)

/-! Claim C5. -/

/-- C5 counterexample: a page with exactly one fragment (fewer than 2), for
which the column-count estimator returns 4, not 1 — the guard in
`_improve_column_detection` only short-circuits on an empty fragment list, so
with a single fragment the width heuristic and the density grid both vote 4. -/
theorem C5_counterexample :
    pageOneBlock.text_blocks.length < 2 ∧
    improve_column_detection km0 pageOneBlock = .ok 4 :=
  ⟨by decide, by decide⟩

/-- C5 (amended): with zero fragments the estimator returns 1 without running
any method.  (With exactly one fragment the methods do run and can return a
count greater than 1, see the counterexample.) -/
theorem C5_empty_returns_one (km : List ℚ → ℚ × ℚ) (p : PageResult)
    (h : p.text_blocks = []) : improve_column_detection km p = .ok 1 := by
  unfold improve_column_detection
  simp [h]

/-- Witness for the amended C5 on a concrete empty page. -/
theorem C5_empty_returns_one_witness : improve_column_detection km0 pageEmpty = .ok 1 :=
  C5_empty_returns_one km0 pageEmpty (by decide)

/-! Claim C6. -/

/-- Modelled from the spec: C6's reading of the large-gap rule, under which a
significant gap is large exactly when it exceeds the larger of 1.1 times the
mean significant gap and 20 percent of the page width — that is, exceeds both
thresholds. -/
def specLargeGapsOf (unique_x : List ℚ) (W : ℚ) : List ℚ :=
  let gaps := significantGaps unique_x
  gaps.filter (fun g => decide (listMean gaps * (11/10) < g) && decide (W * (1/5) < g))

/-- C6 counterexample: for deduplicated left edges 0, 30, 130 on a 1000-wide
page the significant gaps are 30 and 100 with mean 65; the code classifies 100
as large because it exceeds 1.1 times the mean, although it does not exceed 20
percent of the page width, so the classification disagrees with the spec's
larger-of-the-two rule at this input. -/
theorem C6_counterexample :
    significantGaps [0, 30, 130] = [30, 100] ∧
    largeGapsOf [0, 30, 130] 1000 = [100] ∧
    specLargeGapsOf [0, 30, 130] 1000 = [] ∧
    largeGapsOf [0, 30, 130] 1000 ≠ specLargeGapsOf [0, 30, 130] 1000 :=
  ⟨by decide, by decide, by decide, by decide⟩

/-- C6 (amended): a consecutive gap of the sorted deduplicated left edges that
is above the absolute noise floor 20 is classified large exactly when it
exceeds 1.1 times the mean significant gap or exceeds 20 percent of the page
width — either threshold suffices. -/
theorem C6_largeGap_iff (unique_x : List ℚ) (W g : ℚ) :
    g ∈ largeGapsOf unique_x W ↔
      (g ∈ consecGaps unique_x ∧ 20 < g) ∧
        (listMean (significantGaps unique_x) * (11/10) < g ∨ W * (1/5) < g) := by
  simp only [largeGapsOf, significantGaps, List.mem_filter, decide_eq_true_eq, Bool.or_eq_true]

/-! Claim C4. -/

theorem mostCommonFirst_three (a b c : ℕ) :
    mostCommonFirst [a, b, c] = if a = b ∨ a = c then a else if b = c then b else a := by
  by_cases hab : a = b
  · subst hab
    by_cases hac : a = c
    · subst hac
      simp [mostCommonFirst, keysInOrder, countOcc]
    · have hca : c ≠ a := Ne.symm hac
      simp [mostCommonFirst, keysInOrder, countOcc, hac, hca]
  · have hba : b ≠ a := Ne.symm hab
    by_cases hac : a = c
    · subst hac
      simp [mostCommonFirst, keysInOrder, countOcc, hab, hba]
    · have hca : c ≠ a := Ne.symm hac
      by_cases hbc : b = c
      · subst hbc
        simp [mostCommonFirst, keysInOrder, countOcc, hab, hba, hac, hca]
      · have hcb : c ≠ b := Ne.symm hbc
        simp [mostCommonFirst, keysInOrder, countOcc, hab, hba, hac, hca, hbc, hcb]

theorem mostCommonFirst_three_mem (a b c : ℕ) : mostCommonFirst [a, b, c] ∈ [a, b, c] := by
  rw [mostCommonFirst_three]
  split_ifs <;> simp

theorem mostCommonFirst_three_max (a b c : ℕ) :
    ∀ x ∈ [a, b, c], countOcc [a, b, c] x ≤ countOcc [a, b, c] (mostCommonFirst [a, b, c]) := by
  intro x hx
  rw [mostCommonFirst_three]
  simp only [List.mem_cons, List.not_mem_nil, or_false] at hx
  simp only [countOcc, List.countP_cons, List.countP_nil, decide_eq_true_eq]
  rcases hx with rfl | rfl | rfl <;> split_ifs <;> omega

/-- Modelled from the spec: plurality vote over the method results, ties broken
by preferring the smaller count. -/
def specPluralityVote (l : List ℕ) : ℕ :=
  match (keysInOrder l).filter (fun k => decide (∀ j ∈ l, countOcc l j ≤ countOcc l k)) with
  | [] => 0
  | k :: ks => ks.foldl min k

/-- C4 counterexample: on `pageThreeWay` the three methods return the pairwise
distinct counts 2, 1 and 4.  The vote is a three-way tie;
`Counter.most_common(1)` breaks it in favour of the first method's value, so
the code returns 2, while the spec's tie-breaking rule prefers the smaller
count 1. -/
theorem C4_counterexample :
    analyze_column_layout pageThreeWay = .ok 2 ∧
    heuristic_column_detection km0 pageThreeWay = .ok 1 ∧
    density_based_column_detection pageThreeWay = .ok 4 ∧
    improve_column_detection km0 pageThreeWay = .ok 2 ∧
    specPluralityVote [2, 1, 4] = 1 ∧
    improve_column_detection km0 pageThreeWay ≠ .ok (specPluralityVote [2, 1, 4]) :=
  ⟨by decide, by decide, by decide, by decide, by decide, by decide⟩

/-- C4 (amended): on a page with fragments, the final column count is the
plurality vote of the three method results — a value from the vote list whose
multiplicity is maximal — but a tie is broken by preferring the value of the
earliest method in the fixed order (gap-histogram clustering, width heuristic,
density grid), not the smaller count. -/
theorem C4_vote_first_method_ties (km : List ℚ → ℚ × ℚ) (p : PageResult) (a b c : ℕ)
    (hne : p.text_blocks ≠ [])
    (h1 : analyze_column_layout p = .ok a)
    (h2 : heuristic_column_detection km p = .ok b)
    (h3 : density_based_column_detection p = .ok c) :
    improve_column_detection km p =
      .ok (if a = b ∨ a = c then a else if b = c then b else a) ∧
    improve_column_detection km p = .ok (mostCommonFirst [a, b, c]) ∧
    mostCommonFirst [a, b, c] ∈ [a, b, c] ∧
    (∀ x ∈ [a, b, c], countOcc [a, b, c] x ≤ countOcc [a, b, c] (mostCommonFirst [a, b, c])) := by
  have himp : improve_column_detection km p = .ok (mostCommonFirst [a, b, c]) := by
    unfold improve_column_detection
    simp [hne, h1, h2, h3, Bind.bind, Except.bind, Pure.pure, Except.pure]
  exact ⟨by rw [himp, mostCommonFirst_three], himp, mostCommonFirst_three_mem a b c,
    mostCommonFirst_three_max a b c⟩

/-- Witness for the amended C4 at the concrete three-way-tie page. -/
theorem C4_vote_first_method_ties_witness :
    improve_column_detection km0 pageThreeWay =
      .ok (if 2 = 1 ∨ 2 = 4 then 2 else if 1 = 4 then 1 else 2) ∧
    improve_column_detection km0 pageThreeWay = .ok (mostCommonFirst [2, 1, 4]) ∧
    mostCommonFirst [2, 1, 4] ∈ [2, 1, 4] ∧
    (∀ x ∈ [2, 1, 4], countOcc [2, 1, 4] x ≤ countOcc [2, 1, 4] (mostCommonFirst [2, 1, 4])) :=
  C4_vote_first_method_ties km0 pageThreeWay 2 1 4 (by decide) (by decide) (by decide) (by decide)

/-! Claim C2. -/

/-- The value of the column index when assignment does not raise. -/
def asgIdx (W : ℚ) (n : ℕ) (b : TextBlock) : ℕ :=
  match asgCol W n b with
  | .ok i => i
  | .error _ => 0

theorem asgCol_of_short (W : ℚ) (n : ℕ) (b : TextBlock) (h : b.bbox.length < 2) :
    asgCol W n b = .ok 0 := by
  simp [asgCol, h]

theorem asgCol_eq_ok_asgIdx (W : ℚ) (n : ℕ) (b : TextBlock) (h : b.bbox.length ≠ 2) :
    asgCol W n b = .ok (asgIdx W n b) := by
  unfold asgIdx asgCol
  by_cases h2 : b.bbox.length < 2
  · simp [h2]
  · have h3 : ¬ b.bbox.length < 3 := by omega
    simp [h2, h3]

theorem asgCol_isOk_iff (W : ℚ) (n : ℕ) (b : TextBlock) :
    (asgCol W n b).isOk = true ↔ b.bbox.length ≠ 2 := by
  unfold asgCol
  by_cases h2 : b.bbox.length < 2
  · simp [h2, Except.isOk, Except.toBool]
    omega
  · by_cases h3 : b.bbox.length < 3
    · have : b.bbox.length = 2 := by omega
      simp [h2, h3, Except.isOk, Except.toBool, this]
    · simp [h2, h3, Except.isOk, Except.toBool]
      omega

theorem asgCol_ok_lt (W : ℚ) (n : ℕ) (hn : 1 ≤ n) (b : TextBlock) (i : ℕ)
    (h : asgCol W n b = .ok i) : i < n := by
  unfold asgCol at h
  by_cases h2 : b.bbox.length < 2
  · simp [h2] at h
    omega
  · by_cases h3 : b.bbox.length < 3
    · simp [h2, h3] at h
    · simp only [h2, h3, if_false, Except.ok.injEq] at h
      generalize hf : List.find? _ (List.range n) = r at h
      cases r with
      | none =>
        subst h
        simpa using hn
      | some j =>
        subst h
        exact List.mem_range.mp (List.mem_of_find?_eq_some hf)

theorem asgIdx_lt (W : ℚ) (n : ℕ) (hn : 1 ≤ n) (b : TextBlock) : asgIdx W n b < n := by
  unfold asgIdx
  cases hc : asgCol W n b with
  | error e => exact hn
  | ok i => exact asgCol_ok_lt W n hn b i hc

/-- C2 counterexample: a fragment list containing one fragment whose box has
exactly two entries.  `_assign_blocks_to_columns` evaluates `block.bbox[2]` and
raises `IndexError`, so no partition into column lists is returned at all,
contradicting the claim's universal contract (the spec's own error-handling
section promises such malformed fragments are appended to column 0 instead). -/
theorem C2_counterexample :
    assign_blocks_to_columns pageLen2 1 = .error () ∧
    pageLen2.text_blocks.length = 1 :=
  ⟨by decide, by decide⟩

/-- A concrete page for the C2 witness: two positioned blocks in different
halves and one block without a box. -/
def pageAssign : PageResult :=
  { page_number := 1, width := 800, height := 600, text_blocks :=
    [mkB 50 10 150 30 "left", { text := "nobox", bbox := [] }, mkB 650 10 750 30 "right"] }

/-- C2 (amended): for every fragment list in which no box has exactly two
entries (such a box makes the assigner raise `IndexError`, see the
counterexample), and every column count `n ≥ 1`, assignment returns exactly
`n` column lists that partition the input: the concatenation of the columns is
a permutation of the input (so the total count matches and every fragment
occurs with unchanged multiplicity), and a fragment with no usable box (fewer
than two entries) is placed in column 0. -/
theorem C2_assign_partitions (p : PageResult) (n : ℕ) (hn : 1 ≤ n)
    (hbox : ∀ b ∈ p.text_blocks, b.bbox.length ≠ 2) :
    ∃ cols, assign_blocks_to_columns p n = .ok cols ∧
      cols.length = n ∧
      cols.flatten.Perm p.text_blocks ∧
      (cols.map List.length).sum = p.text_blocks.length ∧
      (∀ b, cols.flatten.count b = p.text_blocks.count b) ∧
      (∀ b ∈ p.text_blocks, b.bbox.length < 2 → b ∈ cols.headD []) := by
  have hall : p.text_blocks.all (fun b => (asgCol p.width n b).isOk) = true := by
    rw [List.all_eq_true]
    intro b hb
    exact (asgCol_isOk_iff p.width n b).mpr (hbox b hb)
  have hfeq : ∀ i : ℕ, p.text_blocks.filter (fun b => decide (asgCol p.width n b = .ok i)) =
      p.text_blocks.filter (fun b => decide (asgIdx p.width n b = i)) := by
    intro i
    apply List.filter_congr
    intro b hb
    rw [asgCol_eq_ok_asgIdx p.width n b (hbox b hb)]
    simp
  have hperm : ((List.range n).map (fun i =>
      p.text_blocks.filter (fun b => decide (asgCol p.width n b = .ok i)))).flatten.Perm
        p.text_blocks := by
    simp only [hfeq]
    exact flatten_filter_index (asgIdx p.width n) n p.text_blocks
      (fun b _ => asgIdx_lt p.width n hn b)
  refine ⟨(List.range n).map (fun i =>
      p.text_blocks.filter (fun b => decide (asgCol p.width n b = .ok i))), ?_, ?_, hperm, ?_, ?_, ?_⟩
  · simp [assign_blocks_to_columns, hall]
  · simp
  · have hlen := hperm.length_eq
    rw [List.length_flatten] at hlen
    simpa using hlen
  · intro b
    exact hperm.count_eq b
  · obtain ⟨m, rfl⟩ : ∃ m, n = m + 1 := ⟨n - 1, by omega⟩
    intro b hb hlen
    have h0 : asgCol p.width (m + 1) b = .ok 0 := asgCol_of_short _ _ b hlen
    rw [List.range_succ_eq_map]
    simp only [List.map_cons, List.headD_cons]
    exact List.mem_filter.mpr ⟨hb, by simp [h0]⟩

/-- Witness for the amended C2 on a concrete page with two positioned blocks
and one box-less block, split into two columns. -/
theorem C2_assign_partitions_witness :
    ∃ cols, assign_blocks_to_columns pageAssign 2 = .ok cols ∧
      cols.length = 2 ∧
      cols.flatten.Perm pageAssign.text_blocks ∧
      (cols.map List.length).sum = pageAssign.text_blocks.length ∧
      (∀ b, cols.flatten.count b = pageAssign.text_blocks.count b) ∧
      (∀ b ∈ pageAssign.text_blocks, b.bbox.length < 2 → b ∈ cols.headD []) :=
  C2_assign_partitions pageAssign 2 (by decide) (by decide)

/-! Claim C3. -/

theorem sortKeyE_isOk_iff (b : TextBlock) :
    (sortKeyE b).isOk = true ↔ (b.bbox = [] ∨ 2 ≤ b.bbox.length) := by
  unfold sortKeyE
  by_cases h0 : b.bbox = []
  · simp [h0, Except.isOk, Except.toBool]
  · by_cases h1 : b.bbox.length < 2
    · simp [h0, h1, Except.isOk, Except.toBool]
    · simp [h0, h1, Except.isOk, Except.toBool]
      omega

theorem getD_map_sort (L : List (List TextBlock)) (i : ℕ) :
    (L.map stableSortByKey).getD i [] = stableSortByKey (L.getD i []) := by
  induction L generalizing i with
  | nil => cases i <;> rfl
  | cons c L ih =>
    cases i with
    | zero => rfl
    | succ j => simpa using ih j

/-- A concrete column list for the C3 witness, with a tie on the sort key in
the first column. -/
def colsWitness : List (List TextBlock) :=
  [[mkB 10 50 90 60 "A", mkB 15 10 95 20 "B", mkB 20 10 80 22 "C"],
   [mkB 410 90 490 95 "D", mkB 420 5 480 8 "E"],
   [{ text := "F", bbox := [] }]]

/-- C3: for every list of columns whose blocks all have either an empty box or
a box with at least two entries (otherwise the sort key raises, see
`sortKeyE`), stacked-column composition sorts each column by top-edge y
ascending with ties kept in the original order (the filtered-by-key lists are
unchanged), then concatenates the columns left to right; the composed output
is a permutation of the input fragments and the fragments themselves are
unchanged (the output consists of exactly the input fragment values, with
multiplicities). -/
theorem C3_stacked_composition (cols : List (List TextBlock))
    (h : ∀ col ∈ cols, ∀ b ∈ col, b.bbox = [] ∨ 2 ≤ b.bbox.length) :
    ∃ scols, sort_blocks_in_columns cols = .ok scols ∧
      scols.length = cols.length ∧
      (merge_columns_in_reading_order scols).Perm cols.flatten ∧
      (∀ b, (merge_columns_in_reading_order scols).count b = cols.flatten.count b) ∧
      ∀ i, i < cols.length →
        (scols.getD i []).Perm (cols.getD i []) ∧
        List.Sorted keyLe (scols.getD i []) ∧
        ∀ v : ℚ, (scols.getD i []).filter (fun b => decide (sortKey b = v)) =
          (cols.getD i []).filter (fun b => decide (sortKey b = v)) := by
  have hall : cols.all (fun col => col.all (fun b => (sortKeyE b).isOk)) = true := by
    rw [List.all_eq_true]
    intro col hcol
    rw [List.all_eq_true]
    intro b hb
    exact (sortKeyE_isOk_iff b).mpr (h col hcol b hb)
  have hperm : (merge_columns_in_reading_order (cols.map stableSortByKey)).Perm cols.flatten :=
    filter_perm_flatten stableSortByKey stableSortByKey_perm cols
  refine ⟨cols.map stableSortByKey, ?_, by simp, hperm, fun b => hperm.count_eq b, ?_⟩
  · simp [sort_blocks_in_columns, hall]
  · intro i _
    rw [getD_map_sort]
    exact ⟨stableSortByKey_perm _, stableSortByKey_sorted _, fun v => filter_keyEq_sort v _⟩

/-- Witness for C3 on a concrete three-column list with a key tie. -/
theorem C3_stacked_composition_witness :
    ∃ scols, sort_blocks_in_columns colsWitness = .ok scols ∧
      scols.length = colsWitness.length ∧
      (merge_columns_in_reading_order scols).Perm colsWitness.flatten ∧
      (∀ b, (merge_columns_in_reading_order scols).count b = colsWitness.flatten.count b) ∧
      ∀ i, i < colsWitness.length →
        (scols.getD i []).Perm (colsWitness.getD i []) ∧
        List.Sorted keyLe (scols.getD i []) ∧
        ∀ v : ℚ, (scols.getD i []).filter (fun b => decide (sortKey b = v)) =
          (colsWitness.getD i []).filter (fun b => decide (sortKey b = v)) :=
  C3_stacked_composition colsWitness (by decide)

/-! Claim C9. -/

/-- The exact condition under which `_detect_headers_footers` relabels a block
as a header (mirrors the guard structure of `hfStep`). -/
def headerReclass (W H : ℚ) (b : TextBlock) : Bool :=
  if b.bbox.length < 4 then false
  else if H * (3/10) < b.bbox.getD 3 0 - b.bbox.getD 1 0 ∨
      W * (4/5) < b.bbox.getD 2 0 - b.bbox.getD 0 0 then false
  else if b.bbox.getD 1 0 < H * (1/20) ∧ b.bbox.getD 3 0 < H * (1/20) * 2 then
    is_likely_header b W
  else false

/-- The exact condition under which `_detect_headers_footers` relabels a block
as a footer. -/
def footerReclass (W H : ℚ) (b : TextBlock) : Bool :=
  if b.bbox.length < 4 then false
  else if H * (3/10) < b.bbox.getD 3 0 - b.bbox.getD 1 0 ∨
      W * (4/5) < b.bbox.getD 2 0 - b.bbox.getD 0 0 then false
  else if b.bbox.getD 1 0 < H * (1/20) ∧ b.bbox.getD 3 0 < H * (1/20) * 2 then false
  else if H * (19/20) < b.bbox.getD 3 0 ∧ H * (19/20) - H * (1/20) < b.bbox.getD 1 0 then
    is_likely_footer b W
  else false

theorem hfStep_block_type (W H : ℚ) (b : TextBlock) :
    (hfStep W H b).block_type =
      if headerReclass W H b then "header"
      else if footerReclass W H b then "footer" else b.block_type := by
  unfold hfStep headerReclass footerReclass
  by_cases h4 : b.bbox.length < 4
  · simp only [if_pos h4]
    simp
  · simp only [if_neg h4]
    by_cases hbig : H * (3/10) < b.bbox.getD 3 0 - b.bbox.getD 1 0 ∨
        W * (4/5) < b.bbox.getD 2 0 - b.bbox.getD 0 0
    · simp only [if_pos hbig]
      simp
    · simp only [if_neg hbig]
      by_cases hhd : b.bbox.getD 1 0 < H * (1/20) ∧ b.bbox.getD 3 0 < H * (1/20) * 2
      · simp only [if_pos hhd]
        cases hlh : is_likely_header b W <;> simp [hlh]
      · simp only [if_neg hhd]
        by_cases hft : H * (19/20) < b.bbox.getD 3 0 ∧ H * (19/20) - H * (1/20) < b.bbox.getD 1 0
        · simp only [if_pos hft]
          cases hlf : is_likely_footer b W <;> simp [hlf]
        · simp only [if_neg hft]
          simp

/-- A block with a large font in the top band, short all-caps text: the title
pass marks it, the header/footer pass then overwrites the mark. -/
def blockC9 : TextBlock := { text := "ABC", bbox := [450, 10, 480, 30], font_size := some 15 }

/-- The page holding `blockC9`. -/
def pageC9 : PageResult :=
  { page_number := 1, text_blocks := [blockC9], width := 1000, height := 1000 }

/-- A mid-page block with a large font, untouched by the header/footer pass. -/
def blockMid : TextBlock := { text := "Hello", bbox := [100, 500, 300, 520], font_size := some 15 }

/-- C9 counterexample: `blockC9` has font size 15 (above 14), yet after the
full layout pass its region kind is "header", not "title" — the header/footer
pass does change a Title fragment's kind. -/
theorem C9_counterexample :
    (∃ s, blockC9.font_size = some s ∧ (14 : ℚ) < s) ∧
    (layout_process km0 true true pageC9).text_blocks.map (fun b => b.block_type) = ["header"] :=
  ⟨⟨15, by decide, by decide⟩, by decide⟩

/-- C9 (amended): after the title pass, a fragment with font size above 14 is
classified Title, and the subsequent header/footer pass leaves it Title unless
the fragment satisfies the header (or footer) reclassification conditions —
band position, non-oversized box and the content heuristics — in which case
its kind becomes "header" (respectively "footer"). -/
theorem C9_title_not_independent (W H : ℚ) (b : TextBlock) (s : ℚ)
    (hs : b.font_size = some s) (hgt : 14 < s) :
    (hfStep W H (titleStep b)).block_type =
      if headerReclass W H b then "header"
      else if footerReclass W H b then "footer" else "title" := by
  have h0 : (0 : ℚ) < s := lt_trans (by norm_num) hgt
  have hb' : titleStep b = { b with block_type := "title" } := by
    simp [titleStep, hs, ne_of_gt h0, hgt]
  rw [hfStep_block_type, hb']
  rfl

/-- Witness for the amended C9 on a concrete mid-page block that stays Title. -/
theorem C9_title_not_independent_witness :
    (hfStep 1000 1000 (titleStep blockMid)).block_type =
      if headerReclass 1000 1000 blockMid then "header"
      else if footerReclass 1000 1000 blockMid then "footer" else "title" :=
  C9_title_not_independent 1000 1000 blockMid 15 (by decide) (by decide)

/-! Claim C8. -/

/-- Total text length carried by a character group. -/
def charsTextLength (l : List PChar) : ℕ := (l.map (fun c => c.text.length)).sum

/-- Total text length carried by a list of emitted text objects. -/
def objsTextLength (l : List TextObject) : ℕ := (l.map (fun o => o.text.length)).sum

theorem joinTexts_foldl_length (l : List PChar) :
    ∀ acc : String, (l.foldl (fun a c => a ++ c.text) acc).length = acc.length + charsTextLength l := by
  induction l with
  | nil => intro acc; simp [charsTextLength]
  | cons c cs ih =>
    intro acc
    rw [List.foldl_cons, ih]
    simp [charsTextLength, String.length_append]
    omega

theorem joinTexts_length (l : List PChar) : (joinTexts l).length = charsTextLength l := by
  simpa using joinTexts_foldl_length l ""

theorem filter_bool_pair_length {α : Type} :
    ∀ z : List (α × Bool),
      (z.filter (fun pr => decide (pr.2 = false))).length +
        (z.filter (fun pr => decide (pr.2 = true))).length = z.length := by
  have e1 : (fun (pr : α × Bool) => decide (pr.2 = false)) = (fun pr => !pr.2) :=
    funext (fun pr => by cases pr.2 <;> simp)
  have e2 : (fun (pr : α × Bool) => decide (pr.2 = true)) = (fun pr => pr.2) :=
    funext (fun pr => by cases pr.2 <;> simp)
  intro z
  rw [e1, e2]
  induction z with
  | nil => rfl
  | cons p z ih =>
    cases hb : p.2 <;> simp [List.filter_cons, hb] <;> omega

theorem clusterLR_length (g : List PChar) (labels : List Bool) (h : labels.length = g.length) :
    (clusterLeft g labels).length + (clusterRight g labels).length = g.length := by
  unfold clusterLeft clusterRight
  have hz : (g.zip labels).length = g.length := by
    rw [List.length_zip, h, min_self]
  simpa using (filter_bool_pair_length (g.zip labels)).trans hz

/-- Shorthand for one `pdfplumber` character. -/
def mkC (t : String) (x : ℚ) : PChar := { text := t, x0 := x, x1 := x + 1, top := 0, bottom := 10 }

/-- An eleven-character oversized line whose left cluster holds only two
characters. -/
def groupC8 : List PChar :=
  [mkC "a" 0, mkC "b" 1, mkC "c" 90, mkC "d" 91, mkC "e" 92, mkC "f" 93, mkC "g" 94,
   mkC "h" 95, mkC "i" 96, mkC "j" 97, mkC "k" 98]

/-- An eleven-character oversized line with four characters on the left and
seven on the right. -/
def groupBal : List PChar :=
  [mkC "a" 0, mkC "b" 1, mkC "c" 2, mkC "d" 3, mkC "e" 90, mkC "f" 91, mkC "g" 92,
   mkC "h" 93, mkC "i" 94, mkC "j" 95, mkC "k" 96]

/-- A concrete two-means labelling by horizontal position: cluster 1 right of
x = 50 (what KMeans computes on such clearly separated data). -/
def km2split : List ℚ → Except Unit (List Bool) :=
  fun xs => .ok (xs.map (fun x => decide (50 < x)))

/-- C8 counterexample: on the oversized eleven-character line `groupC8`
(width 99 on a page of width 100, above the 60 percent threshold), clustering
separates two characters on the left from nine on the right.  The left side
has fewer than 3 characters, so the code emits only the right side: the
characters "ab" are dropped from the output, and the fragment is not kept as
one piece either — contradicting the claim that characters are never dropped. -/
theorem C8_counterexample :
    (100 : ℚ) * (3/5) < (calculate_bbox groupC8).getD 2 0 - (calculate_bbox groupC8).getD 0 0 ∧
    10 < groupC8.length ∧
    joinTexts groupC8 = "abcdefghijk" ∧
    (emit_col_group km2split 100 groupC8).map (fun o => o.text) = ["cdefghijk"] :=
  ⟨by decide, by decide, by decide, by decide⟩

theorem emit_pair_stats (a b : List PChar) :
    (([a, b].filter (fun s => !decide (s.length < 3))).map
      (fun s => mkTextObject (joinTexts s) (calculate_bbox s)
        (extract_font_info (s.headD default)))).length =
      (if 3 ≤ a.length then 1 else 0) + (if 3 ≤ b.length then 1 else 0) ∧
    objsTextLength (([a, b].filter (fun s => !decide (s.length < 3))).map
      (fun s => mkTextObject (joinTexts s) (calculate_bbox s)
        (extract_font_info (s.headD default)))) =
      (if 3 ≤ a.length then charsTextLength a else 0) +
      (if 3 ≤ b.length then charsTextLength b else 0) := by
  by_cases h3a : 3 ≤ a.length <;> by_cases h3b : 3 ≤ b.length
  · have hna : ¬ a.length < 3 := by omega
    have hnb : ¬ b.length < 3 := by omega
    simp [List.filter_cons, hna, hnb, h3a, h3b, objsTextLength, mkTextObject, joinTexts_length]
  · have hna : ¬ a.length < 3 := by omega
    have hnb : b.length < 3 := by omega
    simp [List.filter_cons, hna, hnb, h3a, h3b, objsTextLength, mkTextObject, joinTexts_length]
  · have hna : a.length < 3 := by omega
    have hnb : ¬ b.length < 3 := by omega
    simp [List.filter_cons, hna, hnb, h3a, h3b, objsTextLength, mkTextObject, joinTexts_length]
  · have hna : a.length < 3 := by omega
    have hnb : b.length < 3 := by omega
    simp [List.filter_cons, hna, hnb, h3a, h3b, objsTextLength, mkTextObject, joinTexts_length]

/-- C8 (amended): for an oversized fragment (width above 60 percent of the
page and more than 10 characters, with nonempty stripped text), the rescue
path behaves as follows.  If clustering fails, the fragment is kept as one
piece, no characters dropped.  If clustering succeeds, the two clusters
partition the characters, a cluster is re-emitted as a fragment exactly when
it retains at least 3 characters, and the characters of a cluster with fewer
than 3 characters are dropped: both the number of emitted fragments and the
surviving text length count only the clusters of size at least 3. -/
theorem C8_cluster_rescue (km2 : List ℚ → Except Unit (List Bool)) (W : ℚ) (g : List PChar)
    (hover : W * (3/5) < (calculate_bbox g).getD 2 0 - (calculate_bbox g).getD 0 0)
    (hlen : 10 < g.length)
    (htext : ¬ String.mk (stripChars (joinTexts g).data) = "") :
    (km2 (g.map (·.x0)) = .error () →
      emit_col_group km2 W g =
        [mkTextObject (joinTexts g) (calculate_bbox g) (extract_font_info (g.headD default))]) ∧
    (∀ labels, km2 (g.map (·.x0)) = .ok labels → labels.length = g.length →
      (clusterLeft g labels).length + (clusterRight g labels).length = g.length ∧
      (emit_col_group km2 W g).length =
        (if 3 ≤ (clusterLeft g labels).length then 1 else 0) +
        (if 3 ≤ (clusterRight g labels).length then 1 else 0) ∧
      objsTextLength (emit_col_group km2 W g) =
        (if 3 ≤ (clusterLeft g labels).length then charsTextLength (clusterLeft g labels) else 0) +
        (if 3 ≤ (clusterRight g labels).length then charsTextLength (clusterRight g labels) else 0)) := by
  have hcond : (decide (W * (3/5) < (calculate_bbox g).getD 2 0 - (calculate_bbox g).getD 0 0) &&
      decide (10 < g.length)) = true := by
    rw [Bool.and_eq_true, decide_eq_true_eq, decide_eq_true_eq]
    exact ⟨hover, hlen⟩
  constructor
  · intro hk
    unfold emit_col_group
    rw [if_neg htext, if_pos hcond, hk]
  · intro labels hk hlab
    refine ⟨clusterLR_length g labels hlab, ?_⟩
    unfold emit_col_group
    rw [if_neg htext, if_pos hcond, hk]
    by_cases hswap : (if clusterRight g labels = [] then 0
        else listMean ((clusterRight g labels).map (·.x0))) <
        (if clusterLeft g labels = [] then 0 else listMean ((clusterLeft g labels).map (·.x0)))
    · simp only [if_pos hswap]
      refine ⟨((emit_pair_stats (clusterRight g labels) (clusterLeft g labels)).1).trans
        (Nat.add_comm _ _), ((emit_pair_stats (clusterRight g labels)
          (clusterLeft g labels)).2).trans (Nat.add_comm _ _)⟩
    · simp only [if_neg hswap]
      exact emit_pair_stats (clusterLeft g labels) (clusterRight g labels)

/-- Witness for the amended C8 on a concrete balanced oversized line with a
concrete labelling. -/
theorem C8_cluster_rescue_witness :
    (km2split (groupBal.map (·.x0)) = .error () →
      emit_col_group km2split 100 groupBal =
        [mkTextObject (joinTexts groupBal) (calculate_bbox groupBal)
          (extract_font_info (groupBal.headD default))]) ∧
    (∀ labels, km2split (groupBal.map (·.x0)) = .ok labels → labels.length = groupBal.length →
      (clusterLeft groupBal labels).length + (clusterRight groupBal labels).length =
        groupBal.length ∧
      (emit_col_group km2split 100 groupBal).length =
        (if 3 ≤ (clusterLeft groupBal labels).length then 1 else 0) +
        (if 3 ≤ (clusterRight groupBal labels).length then 1 else 0) ∧
      objsTextLength (emit_col_group km2split 100 groupBal) =
        (if 3 ≤ (clusterLeft groupBal labels).length then
          charsTextLength (clusterLeft groupBal labels) else 0) +
        (if 3 ≤ (clusterRight groupBal labels).length then
          charsTextLength (clusterRight groupBal labels) else 0)) :=
  C8_cluster_rescue km2split 100 groupBal (by decide) (by decide) (by decide)

/-! Claim C1: permutation-invariance of the estimator, and idempotence of
column detection. -/

theorem except_ok_bind {α β : Type} (a : α) (f : α → Except Unit β) :
    (Except.ok a >>= f) = f a := rfl

theorem except_error_bind {α β : Type} (f : α → Except Unit β) :
    ((Except.error () : Except Unit α) >>= f) = .error () := rfl

theorem perm_any {α : Type} (f : α → Bool) {l l' : List α} (h : l.Perm l') :
    l.any f = l'.any f := by
  by_cases hl : l.any f = true
  · rw [hl]
    symm
    rw [List.any_eq_true] at hl ⊢
    rcases hl with ⟨x, hx, hfx⟩
    exact ⟨x, h.mem_iff.mp hx, hfx⟩
  · have hl' : ¬ l'.any f = true := by
      intro hc
      apply hl
      rw [List.any_eq_true] at hc ⊢
      rcases hc with ⟨x, hx, hfx⟩
      exact ⟨x, h.mem_iff.mpr hx, hfx⟩
    rw [Bool.not_eq_true] at hl hl'
    rw [hl, hl']

theorem perm_all {α : Type} (f : α → Bool) {l l' : List α} (h : l.Perm l') :
    l.all f = l'.all f := by
  by_cases hl : l.all f = true
  · rw [hl]
    symm
    rw [List.all_eq_true] at hl ⊢
    intro x hx
    exact hl x (h.mem_iff.mpr hx)
  · have hl' : ¬ l'.all f = true := by
      intro hc
      apply hl
      rw [List.all_eq_true] at hc ⊢
      intro x hx
      exact hc x (h.mem_iff.mp hx)
    rw [Bool.not_eq_true] at hl hl'
    rw [hl, hl']

theorem listMean_perm {l l' : List ℚ} (h : l.Perm l') : listMean l = listMean l' := by
  unfold listMean
  rw [h.sum_eq, h.length_eq]

theorem sortedDedup_perm {l l' : List ℚ} (h : l.Perm l') : sortedDedup l = sortedDedup l' := by
  apply List.eq_of_perm_of_sorted (r := fun a b : ℚ => a ≤ b)
  · exact (List.perm_insertionSort _ _).trans (h.dedup.trans (List.perm_insertionSort _ _).symm)
  · exact List.sorted_insertionSort _ _
  · exact List.sorted_insertionSort _ _

theorem clustering_perm {xs xs' : List ℚ} (W : ℚ) (h : xs.Perm xs') :
    detect_columns_by_clustering xs W = detect_columns_by_clustering xs' W := by
  unfold detect_columns_by_clustering
  by_cases h0 : xs = []
  · have h0' : xs' = [] := by
      rw [h0] at h
      exact h.nil_eq.symm
    rw [if_pos h0, if_pos h0']
  · have h0' : xs' ≠ [] := by
      intro he
      rw [he] at h
      exact h0 h.eq_nil
    rw [if_neg h0, if_neg h0', sortedDedup_perm h]

theorem analyze_perm {p p' : PageResult} (hb : p.text_blocks.Perm p'.text_blocks)
    (hw : p.width = p'.width) :
    analyze_column_layout p = analyze_column_layout p' := by
  simp only [analyze_column_layout]
  by_cases hbe : p.text_blocks = []
  · have hbe' : p'.text_blocks = [] := by
      rw [hbe] at hb
      exact hb.nil_eq.symm
    rw [if_pos hbe, if_pos hbe']
  · have hbe' : p'.text_blocks ≠ [] := by
      intro he
      rw [he] at hb
      exact hbe hb.eq_nil
    rw [if_neg hbe, if_neg hbe']
    have hxs : ((p.text_blocks.filter (fun b => decide (2 ≤ b.bbox.length))).map
        (fun b => b.bbox.getD 0 0)).Perm
        ((p'.text_blocks.filter (fun b => decide (2 ≤ b.bbox.length))).map
        (fun b => b.bbox.getD 0 0)) := (hb.filter _).map _
    by_cases hxe : (p.text_blocks.filter (fun b => decide (2 ≤ b.bbox.length))).map
        (fun b => b.bbox.getD 0 0) = []
    · have hxe' : (p'.text_blocks.filter (fun b => decide (2 ≤ b.bbox.length))).map
          (fun b => b.bbox.getD 0 0) = [] := by
        rw [hxe] at hxs
        exact hxs.nil_eq.symm
      rw [if_pos hxe, if_pos hxe']
    · have hxe' : (p'.text_blocks.filter (fun b => decide (2 ≤ b.bbox.length))).map
          (fun b => b.bbox.getD 0 0) ≠ [] := by
        intro he
        rw [he] at hxs
        exact hxe hxs.eq_nil
      rw [if_neg hxe, if_neg hxe', hw]
      by_cases hw0 : p'.width = 0
      · rw [if_pos hw0, if_pos hw0]
      · rw [if_neg hw0, if_neg hw0]
        exact clustering_perm p'.width hxs

theorem heuristic_perm (km : List ℚ → ℚ × ℚ)
    (hkm : ∀ l l', l.Perm l' → km l = km l') {p p' : PageResult}
    (hb : p.text_blocks.Perm p'.text_blocks) (hw : p.width = p'.width) :
    heuristic_column_detection km p = heuristic_column_detection km p' := by
  simp only [heuristic_column_detection]
  by_cases hg : p.text_blocks = [] ∨ p.width = 0
  · have hg' : p'.text_blocks = [] ∨ p'.width = 0 := by
      rcases hg with h | h
      · left
        rw [h] at hb
        exact hb.nil_eq.symm
      · right
        rw [← hw]
        exact h
    rw [if_pos hg, if_pos hg']
  · have hg' : ¬ (p'.text_blocks = [] ∨ p'.width = 0) := by
      intro hc
      apply hg
      rcases hc with h | h
      · left
        rw [h] at hb
        exact hb.eq_nil
      · right
        rw [hw]
        exact h
    rw [if_neg hg, if_neg hg']
    have hwb : (p.text_blocks.filter (fun b => decide (4 ≤ b.bbox.length))).Perm
        (p'.text_blocks.filter (fun b => decide (4 ≤ b.bbox.length))) := hb.filter _
    have hwid : ((p.text_blocks.filter (fun b => decide (4 ≤ b.bbox.length))).map
        (fun b => b.bbox.getD 2 0 - b.bbox.getD 0 0)).Perm
        ((p'.text_blocks.filter (fun b => decide (4 ≤ b.bbox.length))).map
        (fun b => b.bbox.getD 2 0 - b.bbox.getD 0 0)) := hwb.map _
    have hcen : ((p.text_blocks.filter (fun b => decide (4 ≤ b.bbox.length))).map
        (fun b => (b.bbox.getD 0 0 + b.bbox.getD 2 0) / 2)).Perm
        ((p'.text_blocks.filter (fun b => decide (4 ≤ b.bbox.length))).map
        (fun b => (b.bbox.getD 0 0 + b.bbox.getD 2 0) / 2)) := hwb.map _
    by_cases hwe : (p.text_blocks.filter (fun b => decide (4 ≤ b.bbox.length))).map
        (fun b => b.bbox.getD 2 0 - b.bbox.getD 0 0) = []
    · have hwe' : (p'.text_blocks.filter (fun b => decide (4 ≤ b.bbox.length))).map
          (fun b => b.bbox.getD 2 0 - b.bbox.getD 0 0) = [] := by
        rw [hwe] at hwid
        exact hwid.nil_eq.symm
      rw [if_pos hwe, if_pos hwe']
    · have hwe' : (p'.text_blocks.filter (fun b => decide (4 ≤ b.bbox.length))).map
          (fun b => b.bbox.getD 2 0 - b.bbox.getD 0 0) ≠ [] := by
        intro he
        rw [he] at hwid
        exact hwe hwid.eq_nil
      rw [if_neg hwe, if_neg hwe', listMean_perm hwid, hcen.length_eq, hkm _ _ hcen, hw]

theorem density_perm {p p' : PageResult} (hb : p.text_blocks.Perm p'.text_blocks)
    (hw : p.width = p'.width) (hh : p.height = p'.height) :
    density_based_column_detection p = density_based_column_detection p' := by
  simp only [density_based_column_detection]
  by_cases hg : p.text_blocks = [] ∨ p.width = 0 ∨ p.height = 0
  · have hg' : p'.text_blocks = [] ∨ p'.width = 0 ∨ p'.height = 0 := by
      rcases hg with h | h | h
      · left
        rw [h] at hb
        exact hb.nil_eq.symm
      · right; left
        rw [← hw]
        exact h
      · right; right
        rw [← hh]
        exact h
    rw [if_pos hg, if_pos hg']
  · have hg' : ¬ (p'.text_blocks = [] ∨ p'.width = 0 ∨ p'.height = 0) := by
      intro hc
      apply hg
      rcases hc with h | h | h
      · left
        rw [h] at hb
        exact hb.eq_nil
      · right; left
        rw [hw]
        exact h
      · right; right
        rw [hh]
        exact h
    rw [if_neg hg, if_neg hg']
    rw [perm_any (fun b => decide (4 < b.bbox.length)) hb, hw, hh]
    have hcd : ∀ cols rows c : ℤ, colDensity p.text_blocks cols rows c =
        colDensity p'.text_blocks cols rows c := by
      intro cols rows c
      unfold colDensity
      have hr : ∀ r : ℤ, (p.text_blocks.map (cellContrib cols rows r c)).sum =
          (p'.text_blocks.map (cellContrib cols rows r c)).sum :=
        fun r => (hb.map _).sum_eq
      simp only [hr]
    simp only [hcd]

theorem improve_perm (km : List ℚ → ℚ × ℚ)
    (hkm : ∀ l l', l.Perm l' → km l = km l') (p p' : PageResult)
    (hb : p.text_blocks.Perm p'.text_blocks) (hw : p.width = p'.width)
    (hh : p.height = p'.height) :
    improve_column_detection km p = improve_column_detection km p' := by
  simp only [improve_column_detection]
  by_cases hbe : p.text_blocks = []
  · have hbe' : p'.text_blocks = [] := by
      rw [hbe] at hb
      exact hb.nil_eq.symm
    rw [if_pos hbe, if_pos hbe']
  · have hbe' : p'.text_blocks ≠ [] := by
      intro he
      rw [he] at hb
      exact hbe hb.eq_nil
    rw [if_neg hbe, if_neg hbe']
    rw [analyze_perm hb hw, heuristic_perm km hkm hb hw, density_perm hb hw hh]

theorem flatten_map_single {α : Type} (h : ℕ → List α) (i : ℕ) :
    ∀ n : ℕ, i < n → (∀ j, j < n → j ≠ i → h j = []) →
      ((List.range n).map h).flatten = h i := by
  intro n
  induction n with
  | zero => omega
  | succ m ih =>
    intro hi hz
    rw [List.range_succ, List.map_append, List.flatten_append]
    by_cases him : i = m
    · subst him
      have hnil : ((List.range i).map h).flatten = [] := by
        rw [List.flatten_eq_nil_iff]
        intro l hl
        rcases List.mem_map.mp hl with ⟨j, hj, rfl⟩
        exact hz j (lt_trans (List.mem_range.mp hj) (Nat.lt_succ_self i))
          (ne_of_lt (List.mem_range.mp hj))
      simp [hnil]
    · have him' : i < m := by omega
      rw [ih him' (fun j hj hne => hz j (by omega) hne)]
      have hm : h m = [] := hz m (Nat.lt_succ_self m) (fun he => him he.symm)
      simp [hm]

theorem filter_sorted_cols (W : ℚ) (n : ℕ) (blocks : List TextBlock) (i : ℕ) (hi : i < n) :
    ((List.range n).map (fun j =>
        stableSortByKey (blocks.filter (fun b => decide (asgCol W n b = .ok j))))).flatten.filter
      (fun b => decide (asgCol W n b = .ok i)) =
      stableSortByKey (blocks.filter (fun b => decide (asgCol W n b = .ok i))) := by
  rw [List.filter_flatten, List.map_map]
  have hstep : ((List.range n).map (fun j =>
      (stableSortByKey (blocks.filter (fun b => decide (asgCol W n b = .ok j)))).filter
        (fun b => decide (asgCol W n b = .ok i)))).flatten =
      (stableSortByKey (blocks.filter (fun b => decide (asgCol W n b = .ok i)))).filter
        (fun b => decide (asgCol W n b = .ok i)) := by
    apply flatten_map_single _ i n hi
    intro j hj hne
    rw [List.filter_eq_nil_iff]
    intro b hb
    have hbmem : b ∈ blocks.filter (fun b => decide (asgCol W n b = .ok j)) :=
      (List.mem_insertionSort keyLe).mp hb
    have hbj : asgCol W n b = .ok j := by
      have := (List.mem_filter.mp hbmem).2
      simpa using this
    simp [hbj, hne]
  have hself : (stableSortByKey (blocks.filter (fun b => decide (asgCol W n b = .ok i)))).filter
      (fun b => decide (asgCol W n b = .ok i)) =
      stableSortByKey (blocks.filter (fun b => decide (asgCol W n b = .ok i))) := by
    rw [List.filter_eq_self]
    intro b hb
    have hbmem : b ∈ blocks.filter (fun b => decide (asgCol W n b = .ok i)) :=
      (List.mem_insertionSort keyLe).mp hb
    simpa using (List.mem_filter.mp hbmem).2
  exact hstep.trans hself

/-- The page produced by a successful run of `_detect_columns`. -/
def withBlocks (p : PageResult) (bs : List TextBlock) : PageResult :=
  { p with text_blocks := bs, column_processed := true }

theorem detect_columns_of_pipeline (km : List ℚ → ℚ × ℚ) (p2 : PageResult)
    (hg2 : ¬ (p2.text_blocks = [] ∨ p2.width = 0))
    (hpipe : columnPipeline km p2 = .ok (some p2.text_blocks))
    (hcp : p2.column_processed = true) :
    detect_columns km p2 = p2 := by
  unfold detect_columns
  rw [if_neg hg2, hpipe]
  cases p2
  simp_all

/-- C1: column detection followed by reading-order composition is idempotent —
applying `_detect_columns` twice yields the same page as applying it once, for
every page.  The abstracted KMeans call `km` is assumed to depend only on the
multiset of the points it is given (permutation invariance), which is the one
property of `sklearn.KMeans(random_state=0)` the Python code relies on here;
everything else about `km` is arbitrary. -/
theorem C1_detect_columns_idempotent (km : List ℚ → ℚ × ℚ)
    (hkm : ∀ l l', l.Perm l' → km l = km l') (p : PageResult) :
    detect_columns km (detect_columns km p) = detect_columns km p := by
  by_cases hg : p.text_blocks = [] ∨ p.width = 0
  · have hfix : detect_columns km p = p := by
      unfold detect_columns
      rw [if_pos hg]
    rw [hfix]
    exact hfix
  cases hpl : columnPipeline km p with
  | error e =>
    have hfix : detect_columns km p = p := by
      unfold detect_columns
      rw [if_neg hg, hpl]
    rw [hfix]
    exact hfix
  | ok o =>
    cases o with
    | none =>
      have hfix : detect_columns km p = p := by
        unfold detect_columns
        rw [if_neg hg, hpl]
      rw [hfix]
      exact hfix
    | some blocks' =>
      unfold columnPipeline at hpl
      cases him : improve_column_detection km p with
      | error e =>
        rw [him, except_error_bind] at hpl
        exact Except.noConfusion hpl
      | ok n =>
        rw [him, except_ok_bind] at hpl
        by_cases hn : n ≤ 1
        · rw [if_pos hn] at hpl
          simp [Pure.pure, Except.pure] at hpl
        rw [if_neg hn] at hpl
        cases hasg : assign_blocks_to_columns p n with
        | error e =>
          rw [hasg, except_error_bind] at hpl
          exact Except.noConfusion hpl
        | ok cols =>
          rw [hasg, except_ok_bind] at hpl
          cases hsort : sort_blocks_in_columns cols with
          | error e =>
            rw [hsort, except_error_bind] at hpl
            exact Except.noConfusion hpl
          | ok scols =>
            rw [hsort, except_ok_bind] at hpl
            have hmerge : merge_columns_in_reading_order scols = blocks' := by
              simpa [Pure.pure, Except.pure] using hpl
            have hall : p.text_blocks.all (fun b => (asgCol p.width n b).isOk) = true := by
              by_contra hcontra
              unfold assign_blocks_to_columns at hasg
              rw [if_neg hcontra] at hasg
              exact Except.noConfusion hasg
            have hcols : cols = (List.range n).map (fun i =>
                p.text_blocks.filter (fun b => decide (asgCol p.width n b = .ok i))) := by
              unfold assign_blocks_to_columns at hasg
              rw [if_pos hall] at hasg
              exact (Except.ok.inj hasg).symm
            have hks : cols.all (fun col => col.all (fun b => (sortKeyE b).isOk)) = true := by
              by_contra hcontra
              unfold sort_blocks_in_columns at hsort
              rw [if_neg hcontra] at hsort
              exact Except.noConfusion hsort
            have hscols : scols = cols.map stableSortByKey := by
              unfold sort_blocks_in_columns at hsort
              rw [if_pos hks] at hsort
              exact (Except.ok.inj hsort).symm
            have hn1 : 1 ≤ n := by omega
            have hbox : ∀ b ∈ p.text_blocks, b.bbox.length ≠ 2 := by
              intro b hb
              exact (asgCol_isOk_iff p.width n b).mp (List.all_eq_true.mp hall b hb)
            have hfeq : ∀ i : ℕ,
                p.text_blocks.filter (fun b => decide (asgCol p.width n b = .ok i)) =
                p.text_blocks.filter (fun b => decide (asgIdx p.width n b = i)) := by
              intro i
              apply List.filter_congr
              intro b hb
              rw [asgCol_eq_ok_asgIdx p.width n b (hbox b hb)]
              simp
            have hpermcols : cols.flatten.Perm p.text_blocks := by
              rw [hcols]
              simp only [hfeq]
              exact flatten_filter_index (asgIdx p.width n) n p.text_blocks
                (fun b _ => asgIdx_lt p.width n hn1 b)
            have hperm : blocks'.Perm p.text_blocks := by
              rw [← hmerge, hscols]
              exact (filter_perm_flatten stableSortByKey stableSortByKey_perm cols).trans hpermcols
            have hdp : detect_columns km p = withBlocks p blocks' := by
              unfold detect_columns
              rw [if_neg hg]
              unfold columnPipeline
              rw [him, except_ok_bind, if_neg hn, hasg, except_ok_bind, hsort, except_ok_bind,
                hmerge]
              rfl
            have him' : improve_column_detection km (withBlocks p blocks') = .ok n := by
              rw [improve_perm km hkm (withBlocks p blocks') p hperm rfl rfl]
              exact him
            have hall' : blocks'.all (fun b => (asgCol p.width n b).isOk) = true :=
              (perm_all (fun b => (asgCol p.width n b).isOk) hperm).trans hall
            have hfiltereq : ∀ i ∈ List.range n,
                blocks'.filter (fun b => decide (asgCol p.width n b = .ok i)) =
                stableSortByKey (p.text_blocks.filter
                  (fun b => decide (asgCol p.width n b = .ok i))) := by
              intro i hi
              have hilt : i < n := List.mem_range.mp hi
              have hexp : blocks' = ((List.range n).map (fun j =>
                  stableSortByKey (p.text_blocks.filter
                    (fun b => decide (asgCol p.width n b = .ok j))))).flatten := by
                rw [← hmerge, hscols, hcols, List.map_map]
                rfl
              rw [hexp]
              exact filter_sorted_cols p.width n p.text_blocks i hilt
            have hasg' : assign_blocks_to_columns (withBlocks p blocks') n = .ok scols := by
              unfold assign_blocks_to_columns
              dsimp only [withBlocks]
              rw [if_pos hall']
              congr 1
              rw [hscols, hcols, List.map_map]
              exact List.map_congr_left hfiltereq
            have hks' : scols.all (fun col => col.all (fun b => (sortKeyE b).isOk)) = true := by
              rw [List.all_eq_true]
              intro col hcol
              rw [hscols] at hcol
              rcases List.mem_map.mp hcol with ⟨col0, hcol0, rfl⟩
              rw [List.all_eq_true]
              intro b hb
              have hbmem : b ∈ col0 := (List.mem_insertionSort keyLe).mp hb
              exact List.all_eq_true.mp (List.all_eq_true.mp hks col0 hcol0) b hbmem
            have hsort' : sort_blocks_in_columns scols = .ok scols := by
              unfold sort_blocks_in_columns
              rw [if_pos hks']
              congr 1
              rw [hscols, List.map_map]
              exact List.map_congr_left (fun col _ => stableSortByKey_idem col)
            have hpipe' : columnPipeline km (withBlocks p blocks') = .ok (some blocks') := by
              unfold columnPipeline
              rw [him', except_ok_bind, if_neg hn, hasg', except_ok_bind, hsort', except_ok_bind,
                hmerge]
              rfl
            rw [hdp]
            refine detect_columns_of_pipeline km (withBlocks p blocks') ?_ ?_ rfl
            · intro hc
              rcases hc with h | h
              · apply hg
                left
                have hb0 : blocks' = [] := h
                rw [hb0] at hperm
                exact hperm.nil_eq.symm
              · exact hg (Or.inr h)
            · exact hpipe'

/-- A clear two-column page (mirroring the repository's own two-column test):
detection votes 2 columns and actually reorders the fragments. -/
def pageTwoCol : PageResult :=
  { page_number := 1, width := 800, height := 600, text_blocks :=
    [mkB 50 50 350 70 "L1", mkB 450 50 750 70 "R1",
     mkB 50 90 350 110 "L2", mkB 450 90 750 110 "R2"] }

/-- Witness for C1: the constant clustering stand-in is trivially permutation
invariant, and on the concrete two-column page the theorem applies. -/
theorem C1_detect_columns_idempotent_witness :
    detect_columns km0 (detect_columns km0 pageTwoCol) = detect_columns km0 pageTwoCol :=
  C1_detect_columns_idempotent km0 (fun _ _ _ => rfl) pageTwoCol

/-- Sanity: on `pageTwoCol` column detection does reorder into stacked-column
order, so the idempotence witness is not vacuous. -/
theorem pageTwoCol_reordered :
    (detect_columns km0 pageTwoCol).text_blocks.map (fun b => b.text) =
      ["L1", "L2", "R1", "R2"] := by
  decide
